import Mathlib

/-!
# SafeBank Router — verification of the coverage/routing core

Shallow embedding of the deposit-insurance coverage aggregator
(`src/unnamed/part_000`, coverage handler) and the client-side routing
allocator (`src/components/DemoApp.tsx`), with proofs of the spec's
claimed properties.

Monetary amounts are embedded as `Int` (the generators produce integral
amounts; `Math.round` of an integer product is the product itself).
Annual rates are embedded as `ℚ`.
-/

/-! ## Character-level helpers for catalog-key normalization

The source normalizes keys with
`String(s||"").toLowerCase().replace(/\s+/g,"").replace(/[(){}\[\]·,\-_/]/g,"")`.
Lower-casing is embedded with `Char.toLower` (basic-latin case mapping,
which is what `toLowerCase` does on the ASCII/Korean strings involved).
-/

/-- Does `c` belong to the JavaScript `\s` whitespace class?  Codepoints:
space, tab, LF, VT, FF, CR, NBSP, U+1680, U+2000–U+200A, U+2028, U+2029,
U+202F, U+205F, U+3000, U+FEFF. -/
def isWsChar (c : Char) : Bool :=
  let n := c.toNat
  n = 32 || n = 9 || n = 10 || n = 11 || n = 12 || n = 13 ||
  n = 160 || n = 5760 || (8192 ≤ n && n ≤ 8202) ||
  n = 8232 || n = 8233 || n = 8239 || n = 8287 || n = 12288 || n = 65279

/-- Does `c` belong to the stripped punctuation set `[(){}\[\]·,\-_/]`?
Codepoints: `(` 40, `)` 41, `,` 44, `-` 45, `/` 47, `[` 91, `]` 93,
`_` 95, `{` 123, `}` 125, `·` 183. -/
def isPunctChar (c : Char) : Bool :=
  let n := c.toNat
  n = 40 || n = 41 || n = 44 || n = 45 || n = 47 ||
  n = 91 || n = 93 || n = 95 || n = 123 || n = 125 || n = 183

/-- Normalization on character lists: lower-case, drop whitespace, drop the
punctuation set — exactly the three stages of the source's `key`. -/
def normChars (l : List Char) : List Char :=
  ((l.map Char.toLower).filter (fun c => !isWsChar c)).filter (fun c => !isPunctChar c)

/-- `key` from the coverage handler: normalize a string for catalog lookup. -/
def key (s : String) : String :=
  String.mk (normChars s.data)

/-- Composite catalog key `key(institution) + "|" + key(product)`. -/
def compositeKey (inst prod : String) : String :=
  key inst ++ "|" ++ key prod

/-! ## Substring matching (embedding of JavaScript regex literal-alternative tests) -/

/-- Is `pat` a prefix of `s` (character lists)? -/
def matchHead : List Char → List Char → Bool
  | [], _ => true
  | _ :: _, [] => false
  | c :: cs, d :: ds => c = d && matchHead cs ds

/-- Does `s` contain `pat` as a contiguous substring? -/
def hasSub (pat : List Char) : List Char → Bool
  | [] => matchHead pat []
  | d :: ds => matchHead pat (d :: ds) || hasSub pat ds

/-- Does string `s` contain keyword `k`?  Embeds `/k/.test(s)` for a
literal keyword. -/
def containsKw (s k : String) : Bool :=
  hasSub k.data s.data

/-- Does `s` match any of the keywords (embedding of a regex alternative
`/(k1|k2|…)/.test(s)`)? -/
def matchesAny (kws : List String) (s : String) : Bool :=
  kws.any (fun k => containsKw s k)

/-- Case-insensitive variant (embedding of `/(k1|…)/i.test(s)`): both sides
lower-cased; the keyword list is given already lower-cased. -/
def matchesAnyCI (kws : List String) (s : String) : Bool :=
  kws.any (fun k => hasSub k.data (s.data.map Char.toLower))

/-! ## Account model and classifier -/

/-- Account category (`Account["type"]` in the source). -/
inductive AType where
  | demand
  | term
  | fx_deposit
  | trust_protected
  | investment
deriving DecidableEq, Repr, Inhabited

/-- A depositor's holding, as produced by the mydata route. -/
structure Account where
  id : String
  institution : String
  license : String
  type : AType
  currency : String
  balance : Int
  fxRate : Option Int
  term : Option Int
  product_name : Option String
deriving DecidableEq, Repr, Inhabited

/-- Keyword lists of `inferTypeFromProduct`, in source order. -/
def termKws : List String := ["정기예금", "예치", "만기", "적금", "월복리", "단리"]

def demandKws : List String :=
  ["입출금", "보통예금", "보통", "자유입출금", "수시입출금", "통장", "급여", "월급", "체크"]

/-- Foreign-currency keywords (matched case-insensitively in the source),
given lower-cased. -/
def fxKws : List String := ["외화", "달러", "usd", "미국달러"]

def trustKws : List String := ["금전신탁", "원본보전", "신탁"]

/-- `inferTypeFromProduct` from the mydata route: priority-ordered keyword
match — term, then demand, then foreign-currency (case-insensitive), then
trust; default `demand`. -/
def inferTypeFromProduct (n : String) : AType :=
  if matchesAny termKws n then .term
  else if matchesAny demandKws n then .demand
  else if matchesAnyCI fxKws n then .fx_deposit
  else if matchesAny trustKws n then .trust_protected
  else .demand

/-- `inferCurrency` from the mydata route. -/
def inferCurrency (n : String) : String :=
  if matchesAnyCI fxKws n then "USD" else "KRW"

/-- `toKRW`: convert a holding's balance to the reporting currency.
`Math.round((balance ?? 0) * (fxRate ?? 1400))` — with integral inputs the
rounding is the identity. -/
def toKRW (a : Account) : Int :=
  if a.currency = "USD" then a.balance * (a.fxRate.getD 1400) else a.balance

/-- The protected-category test
`["demand","term","fx_deposit","trust_protected"].includes(a.type)`. -/
def isProtectedType (t : AType) : Bool :=
  t = .demand || t = .term || t = .fx_deposit || t = .trust_protected

/-! ## Coverage aggregation (coverage handler in `src/unnamed/part_000`) -/

/-- Institution tier. -/
inductive Tier where
  | tier1
  | tier2
  | other
deriving DecidableEq, Repr, Inhabited

/-- `classifyTier`: savings/mutual keywords ⇒ tier 2; `은행` but not
`저축은행` ⇒ tier 1; otherwise other. -/
def classifyTier (inst : String) : Tier :=
  if matchesAny ["저축은행", "상호저축", "신협", "수협", "새마을금고", "농축협", "상호금융"] inst then .tier2
  else if containsKw inst "은행" && !containsKw inst "저축은행" then .tier1
  else .other

/-- A per-license coverage row (`CoverageRow` in the source; the source's
`protected` field is named `protectedAmt` since `protected` is a Lean
keyword). -/
structure CoverageRow where
  license : String
  institutions : String
  products : List String
  tier : Tier
  eligible : Int
  protectedAmt : Int
  excess : Int
  nonProtected : Int
  accounts : List Account
deriving DecidableEq, Repr, Inhabited

/-- Aggregate coverage totals. -/
structure CoverageTotals where
  eligible : Int
  protectedAmt : Int
  excess : Int
  nonProtected : Int
  tier1 : Int
  tier2 : Int
deriving DecidableEq, Repr

/-- The grouping key: `a.license || a.institution + " 라이선스"` (the license
field, falling back to the institution-derived key when empty). -/
def licKey (a : Account) : String :=
  if a.license = "" then a.institution ++ " 라이선스" else a.license

/-- A freshly created row for license `lic`, seeded from account `a`
(first occurrence sets the display institution and the tier). -/
def freshRow (lic : String) (a : Account) : CoverageRow :=
  { license := lic
    institutions := a.institution
    products := []
    tier := classifyTier a.institution
    eligible := 0
    protectedAmt := 0
    excess := 0
    nonProtected := 0
    accounts := [] }

/-- Catalog membership test for an account:
`kd.has(key(a.institution) + "|" + key(a.product_name ?? ""))`.
The catalog set is embedded as a list of composite keys. -/
def matchedInCatalog (kd : List String) (a : Account) : Bool :=
  kd.contains (compositeKey a.institution (a.product_name.getD ""))

/-- Does the holding count toward `eligible`? — protected category AND
catalog match. -/
def eligTest (kd : List String) (a : Account) : Bool :=
  isProtectedType a.type && matchedInCatalog kd a

/-- Record `a.product_name` once per row (skipped when absent or empty,
matching JavaScript truthiness of `a.product_name &&`). -/
def pushProduct (products : List String) (a : Account) : List String :=
  let p := a.product_name.getD ""
  if p ≠ "" && !products.contains p then products ++ [p] else products

/-- Fold one account into its row: push the account, record the product
name, and add the reporting-currency amount to `eligible` or
`nonProtected` according to `eligTest`. -/
def applyAcc (kd : List String) (a : Account) (r : CoverageRow) : CoverageRow :=
  let amt := toKRW a
  { r with
    accounts := r.accounts ++ [a]
    products := pushProduct r.products a
    eligible := if eligTest kd a then r.eligible + amt else r.eligible
    nonProtected := if eligTest kd a then r.nonProtected else r.nonProtected + amt }

/-- Insert account `a` into the insertion-ordered row list: update the row
whose license equals `licKey a`, or append a fresh row (the `Map`
get-or-create of the source). -/
def updateRows (kd : List String) (a : Account) : List CoverageRow → List CoverageRow
  | [] => [applyAcc kd a (freshRow (licKey a) a)]
  | r :: rs =>
    if r.license = licKey a then applyAcc kd a r :: rs
    else r :: updateRows kd a rs

/-- Group-and-accumulate pass of the coverage handler (step 3 of the
source), over the holdings in sequence order. -/
def buildRows (kd : List String) (accounts : List Account) : List CoverageRow :=
  accounts.foldl (fun rows a => updateRows kd a rows) []

/-- Cap application (step 4): `protected = min(eligible, limit)`,
`excess = max(0, eligible - limit)`. -/
def applyLimit (limit : Int) (r : CoverageRow) : CoverageRow :=
  { r with
    protectedAmt := min r.eligible limit
    excess := max 0 (r.eligible - limit) }

/-- The coverage rows returned by the handler for catalog `kd`, per-license
cap `limit` and holdings `accounts`. -/
def coverageRows (kd : List String) (limit : Int) (accounts : List Account) : List CoverageRow :=
  (buildRows kd accounts).map (applyLimit limit)

/-- Totals roll-up (step 5). -/
def coverageTotals (rows : List CoverageRow) : CoverageTotals :=
  rows.foldl
    (fun t r =>
      { eligible := t.eligible + r.eligible
        protectedAmt := t.protectedAmt + r.protectedAmt
        excess := t.excess + r.excess
        nonProtected := t.nonProtected + r.nonProtected
        tier1 := if r.tier = .tier1 then t.tier1 + r.eligible else t.tier1
        tier2 := if r.tier = .tier2 then t.tier2 + r.eligible else t.tier2 })
    { eligible := 0, protectedAmt := 0, excess := 0, nonProtected := 0, tier1 := 0, tier2 := 0 }

/-- Client-side recomputation of a row when the cap is toggled
(`adjusted` in `DemoApp.tsx`). -/
def adjustRow (limit : Int) (r : CoverageRow) : CoverageRow :=
  { r with
    protectedAmt := min r.eligible limit
    excess := max 0 (r.eligible - limit) }

/-! ## Routing allocator (`computeRouting` in `src/components/DemoApp.tsx`)

The source's module-level constants (`rateOffers`, the liquidity reserve,
the per-offer ceiling) are threaded as explicit values; the offer list is a
parameter so the allocator can be stated for every offer list.
-/

/-- A rate offer from the static `rateOffers` table. -/
structure RateOffer where
  institution : String
  license : String
  product : String
  tenorM : Int
  rate : ℚ
deriving DecidableEq, Repr, Inhabited

/-- A routing-plan entry.  `reason` is the display-only justification
string; its locale number formatting is presentation and is embedded as a
plain decimal rendering of the room. -/
structure PlanEntry where
  institution : String
  license : String
  product : String
  rate : ℚ
  tenorM : Int
  allocate : Int
  reason : String
deriving DecidableEq, Repr, Inhabited

/-- The demo's static offer table (rates written exactly: 3.3%, 3.1%,
2.9%, 3.4%, 3.9%). -/
def rateOffers : List RateOffer :=
  [ ⟨"국민은행", "국민은행 라이선스", "정기예금 12M(복리)", 12, mkRat 33 1000⟩,
    ⟨"신한은행", "신한은행 라이선스", "정기예금 6M(단리)", 6, mkRat 31 1000⟩,
    ⟨"하나은행", "하나은행 라이선스", "정기예금 3M(단리)", 3, mkRat 29 1000⟩,
    ⟨"농협은행", "농협은행 라이선스", "정기예금 12M(단리)", 12, mkRat 34 1000⟩,
    ⟨"저축은행C", "저축은행C 라이선스", "정기예금 12M", 12, mkRat 39 1000⟩ ]

/-- Total of the reporting-currency amounts of a list of holdings. -/
def sumKRW (l : List Account) : Int :=
  (l.map toKRW).sum

/-- `usedByLicense`: reporting-currency total of the protection-eligible-
category holdings of one license (the source builds a record keyed by
`a.license`; a missing entry reads as 0, which the empty sum gives). -/
def usedByLicense (accounts : List Account) (lic : String) : Int :=
  sumKRW (accounts.filter (fun a => isProtectedType a.type && a.license = lic))

/-- Sum of the allocations of a plan. -/
def sumAlloc (l : List PlanEntry) : Int :=
  (l.map (fun p => p.allocate)).sum

/-- Allocation already granted to license `lic` inside a plan
(`plan.filter(p => p.license === o.license).reduce(...)`). -/
def allocTo (plan : List PlanEntry) (lic : String) : Int :=
  sumAlloc (plan.filter (fun p => p.license = lic))

/-- Insert an offer into a descending-by-rate sorted list, before the first
offer of no-greater rate (stable, as the ES2019+ `sort` with comparator
`y.rate - x.rate`). -/
def insertOffer (o : RateOffer) : List RateOffer → List RateOffer
  | [] => [o]
  | x :: xs => if o.rate ≥ x.rate then o :: x :: xs else x :: insertOffer o xs

/-- Stable descending-by-rate sort of the offer table. -/
def sortOffers : List RateOffer → List RateOffer
  | [] => []
  | x :: xs => insertOffer x (sortOffers xs)

/-- The per-offer ceiling (단일 상품 6천만). -/
def perOfferCeiling : Int := 60000000

/-- The plan entry recorded for offer `o` with room `room` and allocation
`alloc`. -/
def mkEntry (o : RateOffer) (room alloc : Int) : PlanEntry :=
  { institution := o.institution
    license := o.license
    product := o.product
    rate := o.rate
    tenorM := o.tenorM
    allocate := alloc
    reason := "한도여유 " ++ toString room }

/-- The greedy allocation loop of `computeRouting`: walk the sorted offers,
stopping when the remaining idle cash is exhausted; for each offer compute
the per-license room and allocate the minimum of the three active bounds.
Returns the extended plan and the remaining cash. -/
def routeLoop (limit : Int) (used : String → Int) :
    List RateOffer → Int → List PlanEntry → List PlanEntry × Int
  | [], remain, plan => (plan, remain)
  | o :: os, remain, plan =>
    if remain ≤ 0 then (plan, remain)
    else
      let already := allocTo plan o.license
      let room := max 0 (limit - used o.license - already)
      if room ≤ 0 then routeLoop limit used os remain plan
      else
        let alloc := min remain (min room perOfferCeiling)
        if alloc > 0 then
          routeLoop limit used os (remain - alloc) (plan ++ [mkEntry o room alloc])
        else routeLoop limit used os remain plan

/-- Result of `computeRouting`. -/
structure RoutingResult where
  liquidityReserve : Int
  idleCash : Int
  plan : List PlanEntry
  projectedInterest : Int
deriving Repr

/-- Reporting-currency total of the demand-category holdings. -/
def demandTotal (accounts : List Account) : Int :=
  sumKRW (accounts.filter (fun a => a.type = .demand))

/-- `computeRouting`: idle cash above the liquidity reserve is greedily
allocated across the rate-sorted offers under the per-license cap and the
per-offer ceiling; `projectedInterest = round(Σ allocate · rate)`. -/
def computeRouting (limitPerLicense : Int) (accounts : List Account)
    (offers : List RateOffer) : RoutingResult :=
  let liquidityReserve : Int := 10000000
  let demandKRW := demandTotal accounts
  let idleCash := max 0 (demandKRW - liquidityReserve)
  let result := routeLoop limitPerLicense (usedByLicense accounts) (sortOffers offers) idleCash []
  { liquidityReserve := liquidityReserve
    idleCash := idleCash
    plan := result.1
    projectedInterest := round ((result.1.map (fun p => (p.allocate : ℚ) * p.rate)).sum) }

/-! ## Auxiliary notions for the stated properties -/

/-- Concatenation of the per-row account lists, in row order. -/
def joinAccounts (rows : List CoverageRow) : List Account :=
  rows.foldr (fun r acc => r.accounts ++ acc) []

/-- `Variant x y`: the character lists `x` and `y` differ only in letter
case, whitespace, or the stripped punctuation characters — the variation
the spec says normalization must tolerate. -/
inductive Variant : List Char → List Char → Prop where
  | nil : Variant [] []
  | same {xs ys : List Char} (c d : Char) (h : c.toLower = d.toLower) :
      Variant xs ys → Variant (c :: xs) (d :: ys)
  | junkL {xs ys : List Char} (c : Char) (h : isWsChar c = true ∨ isPunctChar c = true) :
      Variant xs ys → Variant (c :: xs) ys
  | junkR {xs ys : List Char} (c : Char) (h : isWsChar c = true ∨ isPunctChar c = true) :
      Variant xs ys → Variant xs (c :: ys)

/-! ## Concrete sample inputs (used by the witness statements) -/

/-- A two-product catalog index. -/
def sampleCatalog : List String :=
  [compositeKey "신한은행" "신한 주거래 통장", compositeKey "저축은행C" "정기예금 12M"]

/-- A demand deposit whose (institution, product) pair is in the catalog. -/
def acct1 : Account :=
  ⟨"A1", "신한은행", "신한은행 라이선스", .demand, "KRW", 12000000, none, none, some "신한 주거래 통장"⟩

/-- An investment holding of the same catalog-matched product. -/
def acct2 : Account :=
  ⟨"A2", "신한은행", "신한은행 라이선스", .investment, "KRW", 5000000, none, none, some "신한 주거래 통장"⟩

/-- A term deposit with an empty `license` field, above the 50 000 000 cap. -/
def acct3 : Account :=
  ⟨"A3", "저축은행C", "", .term, "KRW", 70000000, none, some 12, some "정기예금 12M"⟩

def sampleAccounts : List Account := [acct1, acct2, acct3]

/-- One demand holding of 12 000 000 in the reporting currency. -/
def c7Accounts : List Account :=
  [⟨"D1", "국민은행", "국민은행 라이선스", .demand, "KRW", 12000000, none, none, some "보통예금 통장"⟩]

/-- A single offer at 3.1% whose license has full cap room. -/
def c7Offers : List RateOffer :=
  [⟨"신한은행", "신한은행 라이선스", "정기예금 6M(단리)", 6, mkRat 31 1000⟩]

/-- One license already holding 120 000 000 of protection-eligible-category
deposits — more than the 50 000 000 cap. -/
def cexAccounts : List Account :=
  [⟨"B1", "신한은행", "신한은행 라이선스", .demand, "KRW", 120000000, none, none, some "신한 주거래 통장"⟩]

/-- Invariant: a row's `eligible` and `nonProtected` are the sums of its
accounts' reporting-currency amounts, split by the protected-category-and-
catalog-match test. -/
def RowSums (kd : List String) (r : CoverageRow) : Prop :=
  r.eligible = sumKRW (r.accounts.filter (fun a => eligTest kd a)) ∧
  r.nonProtected = sumKRW (r.accounts.filter (fun a => !eligTest kd a))

/-- Invariant: every account of a row is keyed to that row's license. -/
def RowLic (r : CoverageRow) : Prop :=
  ∀ a ∈ r.accounts, r.license = licKey a

/-! ## General lemmas about the coverage aggregation -/

theorem applyLimit_eligible (limit : Int) (r : CoverageRow) :
    (applyLimit limit r).eligible = r.eligible := rfl

theorem min_add_max_sub (e c : Int) : min e c + max 0 (e - c) = e := by
  rcases le_total e c with h | h
  · rw [min_eq_left h, max_eq_left (by omega)]; omega
  · rw [min_eq_right h, max_eq_right (by omega)]; omega

/-- C2: every aggregated coverage row and every cap-toggled client row
satisfies `protected = min(eligible, cap)`, `excess = max(0, eligible - cap)`
and `protected + excess = eligible`. -/
theorem coverage_cap_invariant :
    (∀ kd limit accounts row, row ∈ coverageRows kd limit accounts →
      row.protectedAmt = min row.eligible limit ∧
      row.excess = max 0 (row.eligible - limit) ∧
      row.protectedAmt + row.excess = row.eligible) ∧
    (∀ limit r,
      (adjustRow limit r).protectedAmt = min (adjustRow limit r).eligible limit ∧
      (adjustRow limit r).excess = max 0 ((adjustRow limit r).eligible - limit) ∧
      (adjustRow limit r).protectedAmt + (adjustRow limit r).excess = (adjustRow limit r).eligible) := by
  constructor
  · intro kd limit accounts row hrow
    rcases List.mem_map.mp hrow with ⟨r, _, rfl⟩
    exact ⟨rfl, rfl, min_add_max_sub _ _⟩
  · intro limit r
    exact ⟨rfl, rfl, min_add_max_sub _ _⟩

theorem coverage_cap_invariant_witness :
    ((coverageRows sampleCatalog 50000000 sampleAccounts).head! ∈
        coverageRows sampleCatalog 50000000 sampleAccounts) ∧
    ((coverageRows sampleCatalog 50000000 sampleAccounts).head!.protectedAmt =
        min (coverageRows sampleCatalog 50000000 sampleAccounts).head!.eligible 50000000 ∧
      (coverageRows sampleCatalog 50000000 sampleAccounts).head!.excess =
        max 0 ((coverageRows sampleCatalog 50000000 sampleAccounts).head!.eligible - 50000000) ∧
      (coverageRows sampleCatalog 50000000 sampleAccounts).head!.protectedAmt +
          (coverageRows sampleCatalog 50000000 sampleAccounts).head!.excess =
        (coverageRows sampleCatalog 50000000 sampleAccounts).head!.eligible) :=
  ⟨by decide, coverage_cap_invariant.1 sampleCatalog 50000000 sampleAccounts _ (by decide)⟩

/-! ## General lemmas about the routing loop -/

theorem sumAlloc_append (l1 l2 : List PlanEntry) :
    sumAlloc (l1 ++ l2) = sumAlloc l1 + sumAlloc l2 := by
  simp [sumAlloc]

theorem allocTo_append (plan : List PlanEntry) (e : PlanEntry) (lic : String) :
    allocTo (plan ++ [e]) lic =
      allocTo plan lic + (if e.license = lic then e.allocate else 0) := by
  simp only [allocTo, List.filter_append, sumAlloc_append]
  by_cases h : e.license = lic <;> simp [h, sumAlloc]

theorem routeLoop_stop {limit : Int} {u : String → Int} {o : RateOffer} {os : List RateOffer}
    {remain : Int} {plan : List PlanEntry} (h : remain ≤ 0) :
    routeLoop limit u (o :: os) remain plan = (plan, remain) := by
  simp [routeLoop, h]

theorem routeLoop_skip {limit : Int} {u : String → Int} {o : RateOffer} {os : List RateOffer}
    {remain : Int} {plan : List PlanEntry} (h : 0 < remain)
    (h' : max 0 (limit - u o.license - allocTo plan o.license) ≤ 0) :
    routeLoop limit u (o :: os) remain plan = routeLoop limit u os remain plan := by
  simp [routeLoop, not_le.mpr h, h']

theorem routeLoop_alloc {limit : Int} {u : String → Int} {o : RateOffer} {os : List RateOffer}
    {remain : Int} {plan : List PlanEntry} (h : 0 < remain)
    (h' : 0 < max 0 (limit - u o.license - allocTo plan o.license)) :
    routeLoop limit u (o :: os) remain plan =
      routeLoop limit u os
        (remain - min remain (min (max 0 (limit - u o.license - allocTo plan o.license)) perOfferCeiling))
        (plan ++ [mkEntry o (max 0 (limit - u o.license - allocTo plan o.license))
          (min remain (min (max 0 (limit - u o.license - allocTo plan o.license)) perOfferCeiling))]) := by
  have hc : (0:Int) < perOfferCeiling := by norm_num [perOfferCeiling]
  have halloc : 0 < min remain (min (max 0 (limit - u o.license - allocTo plan o.license)) perOfferCeiling) := by
    omega
  simp [routeLoop, not_le.mpr h, not_le.mpr h', halloc]

theorem routeLoop_remain_nonneg (limit : Int) (u : String → Int) :
    ∀ os remain plan, 0 ≤ remain → 0 ≤ (routeLoop limit u os remain plan).2 := by
  intro os
  induction os with
  | nil => intro remain plan h; simpa [routeLoop] using h
  | cons o os ih =>
    intro remain plan h
    rcases le_or_lt remain 0 with h0 | h0
    · rw [routeLoop_stop h0]; exact h
    · rcases le_or_lt (max 0 (limit - u o.license - allocTo plan o.license)) 0 with h1 | h1
      · rw [routeLoop_skip h0 h1]; exact ih _ _ h
      · rw [routeLoop_alloc h0 h1]
        apply ih
        have := min_le_left remain (min (max 0 (limit - u o.license - allocTo plan o.license)) perOfferCeiling)
        omega

theorem routeLoop_conserve (limit : Int) (u : String → Int) :
    ∀ os remain plan,
      sumAlloc (routeLoop limit u os remain plan).1 + (routeLoop limit u os remain plan).2 =
        sumAlloc plan + remain := by
  intro os
  induction os with
  | nil => intro remain plan; simp [routeLoop]
  | cons o os ih =>
    intro remain plan
    rcases le_or_lt remain 0 with h0 | h0
    · rw [routeLoop_stop h0]
    · rcases le_or_lt (max 0 (limit - u o.license - allocTo plan o.license)) 0 with h1 | h1
      · rw [routeLoop_skip h0 h1]; exact ih _ _
      · rw [routeLoop_alloc h0 h1]
        rw [ih]
        rw [sumAlloc_append]
        simp [mkEntry, sumAlloc]

/-- C5: the routing plan never allocates more than the idle cash. -/
theorem routing_cash_bound (limit : Int) (accounts : List Account) (offers : List RateOffer) :
    sumAlloc (computeRouting limit accounts offers).plan ≤
      (computeRouting limit accounts offers).idleCash := by
  have h1 := routeLoop_conserve limit (usedByLicense accounts) (sortOffers offers)
    (max 0 (demandTotal accounts - 10000000)) []
  have h2 := routeLoop_remain_nonneg limit (usedByLicense accounts) (sortOffers offers)
    (max 0 (demandTotal accounts - 10000000)) [] (le_max_left _ _)
  have hplan : (computeRouting limit accounts offers).plan =
      (routeLoop limit (usedByLicense accounts) (sortOffers offers)
        (max 0 (demandTotal accounts - 10000000)) []).1 := rfl
  have hidle : (computeRouting limit accounts offers).idleCash =
      max 0 (demandTotal accounts - 10000000) := rfl
  rw [hplan, hidle]
  have h0 : sumAlloc ([] : List PlanEntry) = 0 := rfl
  omega

theorem routeLoop_allocTo_bound (limit : Int) (u : String → Int) :
    ∀ os remain plan lic,
      0 ≤ allocTo plan lic → allocTo plan lic ≤ max 0 (limit - u lic) →
      0 ≤ allocTo (routeLoop limit u os remain plan).1 lic ∧
        allocTo (routeLoop limit u os remain plan).1 lic ≤ max 0 (limit - u lic) := by
  intro os
  induction os with
  | nil => intro remain plan lic h1 h2; exact ⟨h1, h2⟩
  | cons o os ih =>
    intro remain plan lic h1 h2
    rcases le_or_lt remain 0 with h0 | h0
    · rw [routeLoop_stop h0]; exact ⟨h1, h2⟩
    · rcases le_or_lt (max 0 (limit - u o.license - allocTo plan o.license)) 0 with hr | hr
      · rw [routeLoop_skip h0 hr]; exact ih _ _ _ h1 h2
      · rw [routeLoop_alloc h0 hr]
        set room := max 0 (limit - u o.license - allocTo plan o.license) with hroomdef
        set alloc := min remain (min room perOfferCeiling) with hallocdef
        have hmk : (mkEntry o room alloc).license = o.license := rfl
        have hmka : (mkEntry o room alloc).allocate = alloc := rfl
        have hc : (0:Int) < perOfferCeiling := by norm_num [perOfferCeiling]
        apply ih
        · rw [allocTo_append, hmk, hmka]
          by_cases hl : o.license = lic
          · subst hl; rw [if_pos rfl]; omega
          · rw [if_neg hl]; omega
        · rw [allocTo_append, hmk, hmka]
          by_cases hl : o.license = lic
          · subst hl; rw [if_pos rfl]; omega
          · rw [if_neg hl]; omega

/-- C3 (amended): the plan's total allocation to any license is nonnegative
and at most the license's cap room `max(0, cap - usedByLicense[license])`. -/
theorem routing_headroom_bound (limit : Int) (accounts : List Account)
    (offers : List RateOffer) (lic : String) :
    0 ≤ allocTo (computeRouting limit accounts offers).plan lic ∧
      allocTo (computeRouting limit accounts offers).plan lic ≤
        max 0 (limit - usedByLicense accounts lic) := by
  have h := routeLoop_allocTo_bound limit (usedByLicense accounts) (sortOffers offers)
    (max 0 (demandTotal accounts - 10000000)) [] lic (le_refl 0) (le_max_left _ _)
  exact h

/-- C3 counterexample: with a single demand holding of 120 000 000 on one
license and cap 50 000 000, the plan allocates 0 to that license while
`cap - usedByLicense` is −70 000 000, so the unfloored bound
`allocation ≤ cap - used` fails. -/
theorem routing_headroom_counterexample :
    ¬ (allocTo (computeRouting 50000000 cexAccounts c7Offers).plan "신한은행 라이선스" ≤
        50000000 - usedByLicense cexAccounts "신한은행 라이선스") := by
  decide

theorem routeLoop_mono (u : String → Int) (limit1 limit2 : Int) (_hl : limit1 ≤ limit2) :
    ∀ os remain1 remain2 plan1 plan2,
      0 ≤ remain2 → remain2 ≤ remain1 →
      (∀ lic, allocTo plan2 lic ≤ allocTo plan1 lic + (limit2 - limit1)) →
      (routeLoop limit2 u os remain2 plan2).2 ≤ (routeLoop limit1 u os remain1 plan1).2 := by
  intro os
  induction os with
  | nil => intro r1 r2 p1 p2 _ hr _; simpa [routeLoop] using hr
  | cons o os ih =>
    intro r1 r2 p1 p2 h0 hr hA
    rcases le_or_lt r1 0 with h1 | h1
    · rw [routeLoop_stop h1, routeLoop_stop (le_trans hr h1)]
      exact hr
    · rcases le_or_lt r2 0 with h2 | h2
      · rw [routeLoop_stop h2]
        have := routeLoop_remain_nonneg limit1 u (o :: os) r1 p1 (le_of_lt h1)
        omega
      · have hA0 := hA o.license
        set a1 := allocTo p1 o.license with ha1
        set a2 := allocTo p2 o.license with ha2
        set room1 := max 0 (limit1 - u o.license - a1) with hroom1
        set room2 := max 0 (limit2 - u o.license - a2) with hroom2
        have hc : (0:Int) < perOfferCeiling := by norm_num [perOfferCeiling]
        rcases le_or_lt room1 0 with hr1 | hr1
        · rcases le_or_lt room2 0 with hr2 | hr2
          · rw [routeLoop_skip h1 hr1, routeLoop_skip h2 hr2]
            exact ih r1 r2 p1 p2 h0 hr hA
          · rw [routeLoop_skip h1 hr1, routeLoop_alloc h2 hr2]
            set alloc2 := min r2 (min room2 perOfferCeiling) with halloc2
            have hmk : (mkEntry o room2 alloc2).license = o.license := rfl
            have hmka : (mkEntry o room2 alloc2).allocate = alloc2 := rfl
            apply ih
            · omega
            · omega
            · intro lic
              rw [allocTo_append, hmk, hmka]
              by_cases hlic : o.license = lic
              · subst hlic; rw [if_pos rfl]; omega
              · rw [if_neg hlic]
                have := hA lic
                omega
        · have hr2 : 0 < room2 := by omega
          rw [routeLoop_alloc h1 hr1, routeLoop_alloc h2 hr2]
          set alloc1 := min r1 (min room1 perOfferCeiling) with halloc1
          set alloc2 := min r2 (min room2 perOfferCeiling) with halloc2
          have hmk1 : (mkEntry o room1 alloc1).license = o.license := rfl
          have hmka1 : (mkEntry o room1 alloc1).allocate = alloc1 := rfl
          have hmk2 : (mkEntry o room2 alloc2).license = o.license := rfl
          have hmka2 : (mkEntry o room2 alloc2).allocate = alloc2 := rfl
          apply ih
          · omega
          · omega
          · intro lic
            rw [allocTo_append, allocTo_append, hmk1, hmka1, hmk2, hmka2]
            by_cases hlic : o.license = lic
            · subst hlic; rw [if_pos rfl, if_pos rfl]; omega
            · rw [if_neg hlic, if_neg hlic]
              have := hA lic
              omega

/-- C4: raising the per-license cap never decreases the total allocation of
the routing plan. -/
theorem routing_monotone_in_cap (accounts : List Account) (offers : List RateOffer)
    (cap1 cap2 : Int) (h : cap1 ≤ cap2) :
    sumAlloc (computeRouting cap1 accounts offers).plan ≤
      sumAlloc (computeRouting cap2 accounts offers).plan := by
  have hmono := routeLoop_mono (usedByLicense accounts) cap1 cap2 h (sortOffers offers)
    (max 0 (demandTotal accounts - 10000000)) (max 0 (demandTotal accounts - 10000000)) [] []
    (le_max_left _ _) (le_refl _) (fun lic => by omega)
  have hc1 := routeLoop_conserve cap1 (usedByLicense accounts) (sortOffers offers)
    (max 0 (demandTotal accounts - 10000000)) []
  have hc2 := routeLoop_conserve cap2 (usedByLicense accounts) (sortOffers offers)
    (max 0 (demandTotal accounts - 10000000)) []
  have hplan1 : (computeRouting cap1 accounts offers).plan =
      (routeLoop cap1 (usedByLicense accounts) (sortOffers offers)
        (max 0 (demandTotal accounts - 10000000)) []).1 := rfl
  have hplan2 : (computeRouting cap2 accounts offers).plan =
      (routeLoop cap2 (usedByLicense accounts) (sortOffers offers)
        (max 0 (demandTotal accounts - 10000000)) []).1 := rfl
  rw [hplan1, hplan2]
  have h0 : sumAlloc ([] : List PlanEntry) = 0 := rfl
  omega

theorem routing_monotone_in_cap_witness :
    (50000000 : Int) ≤ 100000000 ∧
      sumAlloc (computeRouting 50000000 c7Accounts c7Offers).plan ≤
        sumAlloc (computeRouting 100000000 c7Accounts c7Offers).plan :=
  ⟨by norm_num, routing_monotone_in_cap c7Accounts c7Offers 50000000 100000000 (by norm_num)⟩

theorem append_singleton_eq_split {α : Type} (l pre post : List α) (x e : α)
    (h : l ++ [x] = pre ++ e :: post) :
    (pre = l ∧ e = x ∧ post = []) ∨ ∃ q, post = q ++ [x] ∧ l = pre ++ e :: q := by
  rcases List.eq_nil_or_concat post with rfl | ⟨q, y, rfl⟩
  · obtain ⟨ha, hb⟩ := List.append_inj' h (by simp)
    have hx : x = e := by simpa using hb
    exact Or.inl ⟨ha.symm, hx.symm, rfl⟩
  · right
    have h1 : l ++ [x] = (pre ++ e :: q) ++ [y] := by simpa [List.append_assoc] using h
    obtain ⟨ha, hb⟩ := List.append_inj' h1 (by simp)
    have hy : x = y := by simpa using hb
    exact ⟨q, by rw [hy]; exact List.concat_eq_append q y, ha⟩

/-- Step characterization of the greedy loop: when the loop is run with a
budget `B` such that the remaining cash always equals `B` minus the plan
total, every entry of the final plan, at its position `pre ++ e :: post`,
was allocated exactly `min` of the cash remaining before it
(`B - sumAlloc pre`), the license room left before it
(`max 0 (limit - used - allocTo pre)`), and the per-offer ceiling, with
both the first two bounds positive. -/
theorem routeLoop_prefix_spec (limit : Int) (u : String → Int) (B : Int) :
    ∀ os remain plan,
      remain = B - sumAlloc plan →
      (∀ pre e post, plan = pre ++ e :: post →
        0 < B - sumAlloc pre ∧
        0 < max 0 (limit - u e.license - allocTo pre e.license) ∧
        e.allocate = min (B - sumAlloc pre)
          (min (max 0 (limit - u e.license - allocTo pre e.license)) perOfferCeiling)) →
      ∀ pre e post, (routeLoop limit u os remain plan).1 = pre ++ e :: post →
        0 < B - sumAlloc pre ∧
        0 < max 0 (limit - u e.license - allocTo pre e.license) ∧
        e.allocate = min (B - sumAlloc pre)
          (min (max 0 (limit - u e.license - allocTo pre e.license)) perOfferCeiling) := by
  intro os
  induction os with
  | nil => intro remain plan _ hplan pre e post h; exact hplan pre e post h
  | cons o os ih =>
    intro remain plan hinv hplan pre e post h
    rcases le_or_lt remain 0 with h0 | h0
    · rw [routeLoop_stop h0] at h
      exact hplan pre e post h
    · rcases le_or_lt (max 0 (limit - u o.license - allocTo plan o.license)) 0 with h1 | h1
      · rw [routeLoop_skip h0 h1] at h
        exact ih remain plan hinv hplan pre e post h
      · rw [routeLoop_alloc h0 h1] at h
        refine ih
          (remain - min remain (min (max 0 (limit - u o.license - allocTo plan o.license)) perOfferCeiling))
          (plan ++ [mkEntry o (max 0 (limit - u o.license - allocTo plan o.license))
            (min remain (min (max 0 (limit - u o.license - allocTo plan o.license)) perOfferCeiling))])
          ?_ ?_ pre e post h
        · rw [sumAlloc_append]
          have hs : sumAlloc [mkEntry o (max 0 (limit - u o.license - allocTo plan o.license))
              (min remain (min (max 0 (limit - u o.license - allocTo plan o.license)) perOfferCeiling))] =
              min remain (min (max 0 (limit - u o.license - allocTo plan o.license)) perOfferCeiling) := by
            simp [sumAlloc, mkEntry]
          omega
        · intro pre' e' post' hsplit
          rcases append_singleton_eq_split plan pre' post' _ e' hsplit with
            ⟨hpre, he, hpost⟩ | ⟨q, hpost, hplan2⟩
          · subst he
            rw [hpre]
            have hmk : (mkEntry o (max 0 (limit - u o.license - allocTo plan o.license))
                (min remain (min (max 0 (limit - u o.license - allocTo plan o.license)) perOfferCeiling))).license =
                o.license := rfl
            have hmka : (mkEntry o (max 0 (limit - u o.license - allocTo plan o.license))
                (min remain (min (max 0 (limit - u o.license - allocTo plan o.license)) perOfferCeiling))).allocate =
                min remain (min (max 0 (limit - u o.license - allocTo plan o.license)) perOfferCeiling) := rfl
            rw [hmk, hmka, ← hinv]
            exact ⟨h0, h1, rfl⟩
          · exact hplan pre' e' q hplan2

/-- C6: at every position `pre ++ e :: post` of the routing plan, the
entry's allocation equals the minimum of the three bounds active at that
step — the idle cash still unallocated before it
(`idleCash - sumAlloc pre`), the per-license room left before it
(`max 0 (cap - usedByLicense - allocTo pre)`), and the per-offer ceiling
60 000 000 — hence it is positive and exceeds none of the three; and an
offer whose license has zero or negative room is skipped without consuming
cash. -/
theorem routing_alloc_bounds (limit : Int) (accounts : List Account) (offers : List RateOffer) :
    (∀ pre e post,
      (computeRouting limit accounts offers).plan = pre ++ e :: post →
      0 < (computeRouting limit accounts offers).idleCash - sumAlloc pre ∧
      0 < max 0 (limit - usedByLicense accounts e.license - allocTo pre e.license) ∧
      e.allocate = min ((computeRouting limit accounts offers).idleCash - sumAlloc pre)
        (min (max 0 (limit - usedByLicense accounts e.license - allocTo pre e.license)) perOfferCeiling) ∧
      0 < e.allocate ∧
      e.allocate ≤ (computeRouting limit accounts offers).idleCash - sumAlloc pre ∧
      e.allocate ≤ max 0 (limit - usedByLicense accounts e.license - allocTo pre e.license) ∧
      e.allocate ≤ perOfferCeiling) ∧
    (∀ (o : RateOffer) (os : List RateOffer) (remain : Int) (plan : List PlanEntry),
      0 < remain →
      max 0 (limit - usedByLicense accounts o.license - allocTo plan o.license) ≤ 0 →
      routeLoop limit (usedByLicense accounts) (o :: os) remain plan =
        routeLoop limit (usedByLicense accounts) os remain plan) := by
  constructor
  · intro pre e post h
    have hplan : (computeRouting limit accounts offers).plan =
        (routeLoop limit (usedByLicense accounts) (sortOffers offers)
          (max 0 (demandTotal accounts - 10000000)) []).1 := rfl
    have hidle : (computeRouting limit accounts offers).idleCash =
        max 0 (demandTotal accounts - 10000000) := rfl
    rw [hplan] at h
    have hspec := routeLoop_prefix_spec limit (usedByLicense accounts)
      (max 0 (demandTotal accounts - 10000000)) (sortOffers offers)
      (max 0 (demandTotal accounts - 10000000)) []
      (by simp [sumAlloc])
      (by intro pre' e' post' hx; simp at hx)
      pre e post h
    obtain ⟨hA, hB, hC⟩ := hspec
    rw [hidle]
    have hc : (0:Int) < perOfferCeiling := by norm_num [perOfferCeiling]
    exact ⟨hA, hB, hC, by omega, by omega, by omega, by omega⟩
  · intro o os remain plan h0 h1
    exact routeLoop_skip h0 h1

theorem routing_alloc_bounds_witness :
    ((computeRouting 50000000 c7Accounts c7Offers).plan =
        [] ++ (computeRouting 50000000 c7Accounts c7Offers).plan.head! :: [] ∧
      (0:Int) < 2000000 ∧
      max 0 (50000000 - usedByLicense cexAccounts c7Offers.head!.license -
        allocTo [] c7Offers.head!.license) ≤ 0) ∧
    (0 < (computeRouting 50000000 c7Accounts c7Offers).idleCash - sumAlloc [] ∧
      0 < max 0 (50000000 -
        usedByLicense c7Accounts (computeRouting 50000000 c7Accounts c7Offers).plan.head!.license -
        allocTo [] (computeRouting 50000000 c7Accounts c7Offers).plan.head!.license) ∧
      (computeRouting 50000000 c7Accounts c7Offers).plan.head!.allocate =
        min ((computeRouting 50000000 c7Accounts c7Offers).idleCash - sumAlloc [])
          (min (max 0 (50000000 -
            usedByLicense c7Accounts (computeRouting 50000000 c7Accounts c7Offers).plan.head!.license -
            allocTo [] (computeRouting 50000000 c7Accounts c7Offers).plan.head!.license)) perOfferCeiling) ∧
      0 < (computeRouting 50000000 c7Accounts c7Offers).plan.head!.allocate ∧
      (computeRouting 50000000 c7Accounts c7Offers).plan.head!.allocate ≤
        (computeRouting 50000000 c7Accounts c7Offers).idleCash - sumAlloc [] ∧
      (computeRouting 50000000 c7Accounts c7Offers).plan.head!.allocate ≤
        max 0 (50000000 -
          usedByLicense c7Accounts (computeRouting 50000000 c7Accounts c7Offers).plan.head!.license -
          allocTo [] (computeRouting 50000000 c7Accounts c7Offers).plan.head!.license) ∧
      (computeRouting 50000000 c7Accounts c7Offers).plan.head!.allocate ≤ perOfferCeiling) ∧
    (routeLoop 50000000 (usedByLicense cexAccounts) (c7Offers.head! :: []) 2000000 [] =
      routeLoop 50000000 (usedByLicense cexAccounts) [] 2000000 []) :=
  ⟨⟨by decide, by decide, by decide⟩,
   (routing_alloc_bounds 50000000 c7Accounts c7Offers).1 []
     ((computeRouting 50000000 c7Accounts c7Offers).plan.head!) [] (by decide),
   (routing_alloc_bounds 50000000 cexAccounts c7Offers).2 c7Offers.head! [] 2000000 []
     (by decide) (by decide)⟩


/-- C7: `idleCash = max(0, demandTotal - liquidityReserve)` in general, and
the spec's scenario: demand total 12 000 000 with reserve 10 000 000 gives
idle cash 2 000 000; a single 3.1% offer with full room receives the whole
2 000 000 and `projectedInterest = round(2 000 000 · rate)`. -/
theorem routing_idle_cash (limit : Int) (accounts : List Account) (offers : List RateOffer) :
    (computeRouting limit accounts offers).idleCash =
      max 0 (demandTotal accounts - 10000000) ∧
    (computeRouting 50000000 c7Accounts c7Offers).idleCash = 2000000 ∧
    demandTotal c7Accounts = 12000000 ∧
    sumAlloc (computeRouting 50000000 c7Accounts c7Offers).plan = 2000000 ∧
    (computeRouting 50000000 c7Accounts c7Offers).projectedInterest =
      round ((2000000 : ℚ) * mkRat 31 1000) := by
  refine ⟨rfl, by decide, by decide, by decide, ?_⟩
  have hplan : (computeRouting 50000000 c7Accounts c7Offers).plan =
      [⟨"신한은행", "신한은행 라이선스", "정기예금 6M(단리)", mkRat 31 1000, 6, 2000000,
        "한도여유 50000000"⟩] := by decide
  have h2 : (computeRouting 50000000 c7Accounts c7Offers).projectedInterest =
      round (((computeRouting 50000000 c7Accounts c7Offers).plan.map
        (fun p => (p.allocate : ℚ) * p.rate)).sum) := rfl
  rw [h2, hplan]
  norm_num

/-! ## The per-row classification sums (coverage step 3) -/

theorem sumKRW_append (l1 l2 : List Account) :
    sumKRW (l1 ++ l2) = sumKRW l1 + sumKRW l2 := by
  simp [sumKRW]

theorem freshRow_rowSums (kd : List String) (lic : String) (a : Account) :
    RowSums kd (freshRow lic a) := by
  constructor <;> simp [freshRow, sumKRW]

theorem applyAcc_rowSums {kd : List String} {r : CoverageRow} (a : Account)
    (h : RowSums kd r) : RowSums kd (applyAcc kd a r) := by
  obtain ⟨h1, h2⟩ := h
  by_cases he : eligTest kd a <;>
    constructor <;>
      simp [applyAcc, he, h1, h2, List.filter_append, sumKRW_append, sumKRW]

theorem updateRows_rowSums (kd : List String) (a : Account) :
    ∀ rows, (∀ r ∈ rows, RowSums kd r) →
      ∀ r ∈ updateRows kd a rows, RowSums kd r := by
  intro rows
  induction rows with
  | nil =>
    intro _ r hr
    simp only [updateRows, List.mem_singleton] at hr
    subst hr
    exact applyAcc_rowSums a (freshRow_rowSums kd (licKey a) a)
  | cons r0 rs ih =>
    intro hall r hr
    by_cases hl : r0.license = licKey a
    · rw [updateRows, if_pos hl] at hr
      rcases List.mem_cons.mp hr with rfl | hr
      · exact applyAcc_rowSums a (hall r0 (List.mem_cons_self r0 rs))
      · exact hall r (List.mem_cons_of_mem r0 hr)
    · rw [updateRows, if_neg hl] at hr
      rcases List.mem_cons.mp hr with rfl | hr
      · exact hall r (List.mem_cons_self r rs)
      · exact ih (fun r' hr' => hall r' (List.mem_cons_of_mem r0 hr')) r hr

theorem buildRows_rowSums (kd : List String) :
    ∀ (accounts : List Account) (rows : List CoverageRow), (∀ r ∈ rows, RowSums kd r) →
      ∀ r ∈ accounts.foldl (fun rows a => updateRows kd a rows) rows, RowSums kd r := by
  intro accounts
  induction accounts with
  | nil => intro rows h r hr; exact h r hr
  | cons a as ih =>
    intro rows h r hr
    rw [List.foldl_cons] at hr
    exact ih (updateRows kd a rows) (updateRows_rowSums kd a rows h) r hr

/-- C1: in every aggregated coverage row the `eligible` total is exactly
the sum of the reporting-currency amounts of the row's holdings that are
of a protected category AND catalog-matched, `nonProtected` is exactly the
sum over all the other holdings, and an `investment` holding never passes
the eligibility test even when catalog-matched. -/
theorem coverage_classification (kd : List String) (limit : Int) (accounts : List Account) :
    (∀ row ∈ coverageRows kd limit accounts,
      row.eligible =
        sumKRW (row.accounts.filter (fun a => isProtectedType a.type && matchedInCatalog kd a)) ∧
      row.nonProtected =
        sumKRW (row.accounts.filter (fun a => !(isProtectedType a.type && matchedInCatalog kd a)))) ∧
    (∀ a : Account, a.type = .investment →
      (isProtectedType a.type && matchedInCatalog kd a) = false) := by
  constructor
  · intro row hrow
    rcases List.mem_map.mp hrow with ⟨r, hr, rfl⟩
    have h := buildRows_rowSums kd accounts [] (by simp) r hr
    obtain ⟨h1, h2⟩ := h
    constructor
    · simpa [applyLimit, eligTest] using h1
    · simpa [applyLimit, eligTest] using h2
  · intro a ha
    simp [isProtectedType, ha]

theorem coverage_classification_witness :
    ((coverageRows sampleCatalog 50000000 sampleAccounts).head! ∈
        coverageRows sampleCatalog 50000000 sampleAccounts ∧
      acct2.type = AType.investment) ∧
    ((coverageRows sampleCatalog 50000000 sampleAccounts).head!.eligible =
        sumKRW ((coverageRows sampleCatalog 50000000 sampleAccounts).head!.accounts.filter
          (fun a => isProtectedType a.type && matchedInCatalog sampleCatalog a)) ∧
      (isProtectedType acct2.type && matchedInCatalog sampleCatalog acct2) = false ∧
      matchedInCatalog sampleCatalog acct2 = true) :=
  ⟨⟨by decide, by decide⟩,
   ((coverage_classification sampleCatalog 50000000 sampleAccounts).1 _ (by decide)).1,
   (coverage_classification sampleCatalog 50000000 sampleAccounts).2 acct2 (by decide),
   by decide⟩

/-! ## The accounts partition (coverage grouping) -/

theorem joinAccounts_cons (r : CoverageRow) (rs : List CoverageRow) :
    joinAccounts (r :: rs) = r.accounts ++ joinAccounts rs := rfl

theorem updateRows_join (kd : List String) (a : Account) :
    ∀ rows, (joinAccounts (updateRows kd a rows)).Perm (joinAccounts rows ++ [a]) := by
  intro rows
  induction rows with
  | nil =>
    simp [updateRows, joinAccounts, applyAcc, freshRow]
  | cons r0 rs ih =>
    by_cases hl : r0.license = licKey a
    · rw [updateRows, if_pos hl, joinAccounts_cons, joinAccounts_cons]
      have h1 : (applyAcc kd a r0).accounts = r0.accounts ++ [a] := rfl
      rw [h1, List.append_assoc, List.append_assoc]
      exact List.Perm.append_left r0.accounts List.perm_append_comm
    · rw [updateRows, if_neg hl, joinAccounts_cons, joinAccounts_cons, List.append_assoc]
      exact List.Perm.append_left r0.accounts ih

theorem buildRows_join (kd : List String) :
    ∀ (accounts : List Account) (rows : List CoverageRow),
      (joinAccounts (accounts.foldl (fun rows a => updateRows kd a rows) rows)).Perm
        (joinAccounts rows ++ accounts) := by
  intro accounts
  induction accounts with
  | nil => intro rows; simp
  | cons a as ih =>
    intro rows
    rw [List.foldl_cons]
    have h1 := ih (updateRows kd a rows)
    have h2 := List.Perm.append_right as (updateRows_join kd a rows)
    have h3 := h1.trans h2
    simpa [List.append_assoc] using h3

theorem applyLimit_map_join (limit : Int) :
    ∀ rows, joinAccounts (rows.map (applyLimit limit)) = joinAccounts rows := by
  intro rows
  induction rows with
  | nil => rfl
  | cons r rs ih =>
    rw [List.map_cons, joinAccounts_cons, joinAccounts_cons, ih]
    rfl

theorem updateRows_lic (kd : List String) (a : Account) :
    ∀ rows, (∀ r ∈ rows, RowLic r) → ∀ r ∈ updateRows kd a rows, RowLic r := by
  intro rows
  induction rows with
  | nil =>
    intro _ r hr
    simp only [updateRows, List.mem_singleton] at hr
    subst hr
    intro b hb
    simp only [applyAcc, freshRow, List.nil_append] at hb ⊢
    rcases List.mem_singleton.mp hb with rfl
    rfl
  | cons r0 rs ih =>
    intro hall r hr
    by_cases hl : r0.license = licKey a
    · rw [updateRows, if_pos hl] at hr
      rcases List.mem_cons.mp hr with rfl | hr
      · intro b hb
        have hacc : (applyAcc kd a r0).accounts = r0.accounts ++ [a] := rfl
        have hlic : (applyAcc kd a r0).license = r0.license := rfl
        rw [hacc] at hb
        rw [hlic]
        rcases List.mem_append.mp hb with hb | hb
        · exact hall r0 (List.mem_cons_self r0 rs) b hb
        · rcases List.mem_singleton.mp hb with rfl
          exact hl
      · exact hall r (List.mem_cons_of_mem r0 hr)
    · rw [updateRows, if_neg hl] at hr
      rcases List.mem_cons.mp hr with rfl | hr
      · exact hall r (List.mem_cons_self r rs)
      · exact ih (fun r' hr' => hall r' (List.mem_cons_of_mem r0 hr')) r hr

theorem buildRows_lic (kd : List String) :
    ∀ (accounts : List Account) (rows : List CoverageRow), (∀ r ∈ rows, RowLic r) →
      ∀ r ∈ accounts.foldl (fun rows a => updateRows kd a rows) rows, RowLic r := by
  intro accounts
  induction accounts with
  | nil => intro rows h r hr; exact h r hr
  | cons a as ih =>
    intro rows h r hr
    rw [List.foldl_cons] at hr
    exact ih (updateRows kd a rows) (updateRows_lic kd a rows h) r hr

/-- C10: the coverage rows partition the input holdings — the concatenation
of the rows' account lists is a permutation of the input sequence, and
every holding sits in the row keyed by its license (or by
`institution + " 라이선스"` when the license field is empty). -/
theorem coverage_partition (kd : List String) (limit : Int) (accounts : List Account) :
    (joinAccounts (coverageRows kd limit accounts)).Perm accounts ∧
    ∀ row ∈ coverageRows kd limit accounts, ∀ a ∈ row.accounts, row.license = licKey a := by
  constructor
  · rw [coverageRows, applyLimit_map_join]
    have h := buildRows_join kd accounts []
    simpa [joinAccounts] using h
  · intro row hrow a ha
    rcases List.mem_map.mp hrow with ⟨r, hr, rfl⟩
    have hlic : (applyLimit limit r).license = r.license := rfl
    have hacc : (applyLimit limit r).accounts = r.accounts := rfl
    rw [hlic]
    rw [hacc] at ha
    exact buildRows_lic kd accounts [] (by simp) r hr a ha

theorem coverage_partition_witness :
    ((coverageRows sampleCatalog 50000000 sampleAccounts).head! ∈
        coverageRows sampleCatalog 50000000 sampleAccounts ∧
      acct1 ∈ (coverageRows sampleCatalog 50000000 sampleAccounts).head!.accounts) ∧
    ((joinAccounts (coverageRows sampleCatalog 50000000 sampleAccounts)).Perm sampleAccounts ∧
      (coverageRows sampleCatalog 50000000 sampleAccounts).head!.license = licKey acct1) :=
  ⟨⟨by decide, by decide⟩,
   (coverage_partition sampleCatalog 50000000 sampleAccounts).1,
   (coverage_partition sampleCatalog 50000000 sampleAccounts).2 _ (by decide) acct1 (by decide)⟩

/-! ## Normalization robustness -/

theorem char_toNat_ofNat_of_lt {n : Nat} (h : n < 55296) : (Char.ofNat n).toNat = n := by
  have hv : n.isValidChar := Or.inl h
  rw [Char.ofNat, dif_pos hv]
  simp [Char.ofNatAux, Char.toNat, UInt32.toNat, BitVec.ofNatLt]

theorem toLower_idem (c : Char) : c.toLower.toLower = c.toLower := by
  unfold Char.toLower
  by_cases h : c.toNat ≥ 65 ∧ c.toNat ≤ 90
  · rw [if_pos h]
    have h1 : (Char.ofNat (c.toNat + 32)).toNat = c.toNat + 32 :=
      char_toNat_ofNat_of_lt (by omega)
    rw [if_neg (by omega)]
  · rw [if_neg h, if_neg h]

theorem toLower_eq_self {c : Char} (h : ¬(c.toNat ≥ 65 ∧ c.toNat ≤ 90)) : c.toLower = c := by
  unfold Char.toLower
  rw [if_neg h]

theorem toLower_of_ws {c : Char} (h : isWsChar c = true) : c.toLower = c := by
  simp only [isWsChar, Bool.or_eq_true, decide_eq_true_eq, Bool.and_eq_true] at h
  apply toLower_eq_self
  omega

theorem toLower_of_punct {c : Char} (h : isPunctChar c = true) : c.toLower = c := by
  simp only [isPunctChar, Bool.or_eq_true, decide_eq_true_eq] at h
  apply toLower_eq_self
  omega

theorem normChars_cons (c : Char) (l : List Char) :
    normChars (c :: l) =
      if isWsChar c.toLower = false ∧ isPunctChar c.toLower = false then
        c.toLower :: normChars l
      else normChars l := by
  by_cases hw : isWsChar c.toLower <;> by_cases hp : isPunctChar c.toLower <;>
    simp [normChars, List.filter_cons, hw, hp]

theorem normChars_idem (l : List Char) : normChars (normChars l) = normChars l := by
  induction l with
  | nil => rfl
  | cons c l ih =>
    rw [normChars_cons]
    by_cases h : isWsChar c.toLower = false ∧ isPunctChar c.toLower = false
    · rw [if_pos h, normChars_cons, toLower_idem]
      rw [if_pos h, ih]
    · rw [if_neg h, ih]

theorem variant_normChars {x y : List Char} (h : Variant x y) :
    normChars x = normChars y := by
  induction h with
  | nil => rfl
  | same c d hcd _ ih =>
    rw [normChars_cons, normChars_cons, hcd, ih]
  | junkL c hc _ ih =>
    rw [normChars_cons]
    have hfix : c.toLower = c := by
      rcases hc with hc | hc
      · exact toLower_of_ws hc
      · exact toLower_of_punct hc
    rw [hfix, if_neg (by rcases hc with hc | hc <;> simp [hc])]
    exact ih
  | junkR c hc _ ih =>
    rw [normChars_cons (l := _)]
    have hfix : c.toLower = c := by
      rcases hc with hc | hc
      · exact toLower_of_ws hc
      · exact toLower_of_punct hc
    rw [hfix, if_neg (by rcases hc with hc | hc <;> simp [hc])]
    exact ih

/-- C8: the catalog-key normalization is idempotent, identifies strings
that differ only in case, whitespace or the stripped punctuation, and a
catalog lookup is therefore insensitive to such variation on either side
of the composite key. -/
theorem normalization_robust :
    (∀ s : String, key (key s) = key s) ∧
    (∀ x y : List Char, Variant x y → normChars x = normChars y) ∧
    (∀ (kd : List String) (i i' p p' : String),
      Variant i.data i'.data → Variant p.data p'.data →
      kd.contains (compositeKey i p) = kd.contains (compositeKey i' p')) := by
  refine ⟨?_, ?_, ?_⟩
  · intro s
    show String.mk (normChars (String.mk (normChars s.data)).data) = String.mk (normChars s.data)
    rw [show (String.mk (normChars s.data)).data = normChars s.data from rfl, normChars_idem]
  · intro x y h
    exact variant_normChars h
  · intro kd i i' p p' hi hp
    have h1 : key i = key i' := by
      show String.mk (normChars i.data) = String.mk (normChars i'.data)
      rw [variant_normChars hi]
    have h2 : key p = key p' := by
      show String.mk (normChars p.data) = String.mk (normChars p'.data)
      rw [variant_normChars hp]
    rw [compositeKey, compositeKey, h1, h2]

theorem normalization_robust_witness :
    Variant ['A', ' ', 'B'] ['a', '-', 'b'] ∧
    normChars ['A', ' ', 'B'] = normChars ['a', '-', 'b'] := by
  have hvar : Variant ['A', ' ', 'B'] ['a', '-', 'b'] :=
    Variant.same 'A' 'a' (by decide)
      (Variant.junkL ' ' (Or.inl (by decide))
        (Variant.junkR '-' (Or.inr (by decide))
          (Variant.same 'B' 'b' (by decide) Variant.nil)))
  exact ⟨hvar, normalization_robust.2.1 _ _ hvar⟩

/-! ## Classifier priority -/

/-- C9: `inferTypeFromProduct` applies its keyword sets in strict priority
order (term, then demand, then foreign-currency, then trust), defaults to
`demand`, and a name matching both the term and the demand sets is
classified `term`. -/
theorem inferType_priority :
    (∀ n, matchesAny termKws n = true → inferTypeFromProduct n = .term) ∧
    (∀ n, matchesAny termKws n = false → matchesAny demandKws n = true →
      inferTypeFromProduct n = .demand) ∧
    (∀ n, matchesAny termKws n = false → matchesAny demandKws n = false →
      matchesAnyCI fxKws n = true → inferTypeFromProduct n = .fx_deposit) ∧
    (∀ n, matchesAny termKws n = false → matchesAny demandKws n = false →
      matchesAnyCI fxKws n = false → matchesAny trustKws n = true →
      inferTypeFromProduct n = .trust_protected) ∧
    (∀ n, matchesAny termKws n = false → matchesAny demandKws n = false →
      matchesAnyCI fxKws n = false → matchesAny trustKws n = false →
      inferTypeFromProduct n = .demand) ∧
    (∀ n, matchesAny termKws n = true → matchesAny demandKws n = true →
      inferTypeFromProduct n = .term) := by
  refine ⟨?_, ?_, ?_, ?_, ?_, ?_⟩ <;> intro n <;> intros <;> simp_all [inferTypeFromProduct]

theorem inferType_priority_witness :
    (matchesAny termKws "정기예금 통장" = true ∧ matchesAny demandKws "정기예금 통장" = true) ∧
    inferTypeFromProduct "정기예금 통장" = AType.term :=
  ⟨⟨by decide, by decide⟩, inferType_priority.2.2.2.2.2 _ (by decide) (by decide)⟩
